import Mathlib

/-!
Verification of the `unpage` pagination engine (Go, `ricardobranco777/unpage`,
version 0.2.0 sources) against its natural-language specification.

The Go program is shallowly embedded: the dynamically-typed JSON values that
flow through the program (`any` in Go) become the inductive `GoVal`; the pure
helper functions (`getNestedValue`, `getNextLastLinks`, `getInt`, `getString`,
`getEntries`) are translated directly; the `unpage` orchestrator is translated
with HTTP fetching abstracted into oracle functions, and the nondeterministic
completion order of the concurrent page workers modelled as an explicit list
of page numbers.
-/

namespace Unpage

/-- Models the Go `any` (interface) values that flow through the program.
A JSON body decoded by `encoding/json` into `any` uses `vnull`, `vbool`,
`vfloat` (all JSON numbers decode to Go `float64` because the decoder is not
configured with `UseNumber`), `vstr`, `varr` and `vobj`; the constructors
`vint`, `vint64` and `vnumber` model the other dynamic types that `getInt`
inspects.  Go's untyped `nil` (returned by `getNestedValue` on absence) and a
decoded JSON `null` are the same value in Go, so both are `vnull`. -/
inductive GoVal where
  | vnull : GoVal
  | vbool (b : Bool) : GoVal
  | vfloat (x : Float) : GoVal
  | vint (n : Int) : GoVal
  | vint64 (n : Int) : GoVal
  | vnumber (s : String) : GoVal
  | vstr (s : String) : GoVal
  | varr (xs : List GoVal) : GoVal
  | vobj (fields : List (String × GoVal)) : GoVal

/-- The string Go's `%T` verb prints for each dynamic type carried by `GoVal`
(used in the program's error messages). -/
def typeName : GoVal → String
  | .vnull => "<nil>"
  | .vbool _ => "bool"
  | .vfloat _ => "float64"
  | .vint _ => "int"
  | .vint64 _ => "int64"
  | .vnumber _ => "json.Number"
  | .vstr _ => "string"
  | .varr _ => "[]interface \x7b\x7d"
  | .vobj _ => "map[string]interface \x7b\x7d"

/-- Go map lookup `m[k]` on a decoded JSON object, modelled as first-match
lookup in the association list of fields. -/
def lookupField : List (String × GoVal) → String → Option GoVal
  | [], _ => none
  | (k, v) :: rest, key => if k = key then some v else lookupField rest key

/-! ### Models of the Go standard-library string helpers

`strings.Split` (single-character separator), `strings.SplitN(s, sep, 2)`,
`strings.TrimSpace`, `strings.Trim`, `strings.HasPrefix`/`HasSuffix` and
`strconv.Atoi` are modelled by structurally recursive functions over the
character list of a `String`, following the documented Go semantics. -/

/-- Model of Go `strings.Split(s, sep)` for a single-character separator,
over the character list: `splitOnChar c []` is `[[]]`, matching
`strings.Split("", sep) == [""]`. -/
def splitOnChar (c : Char) : List Char → List (List Char)
  | [] => [[]]
  | x :: xs =>
    let r := splitOnChar c xs
    if x = c then [] :: r
    else
      match r with
      | y :: ys => (x :: y) :: ys
      | [] => [[x]]

/-- Splits a character list at the first occurrence of `c`, returning the
parts before and after it, or `none` when `c` does not occur.  This is the
splitting step of Go `strings.SplitN(s, sep, 2)` and `strings.Cut`. -/
def splitFirst (c : Char) : List Char → Option (List Char × List Char)
  | [] => none
  | x :: xs =>
    if x = c then some ([], xs)
    else (splitFirst c xs).map (fun p => (x :: p.1, p.2))

/-- Go `strings.Split(s, sep)` for a single-character separator. -/
def goSplit (s : String) (c : Char) : List String :=
  (splitOnChar c s.data).map (fun l => ⟨l⟩)

/-- Go `strings.SplitN(s, sep, 2)` for a single-character separator: at most
two parts, the second holding the rest of the string verbatim. -/
def goSplitN2 (s : String) (c : Char) : List String :=
  match splitFirst c s.data with
  | none => [s]
  | some (a, b) => [⟨a⟩, ⟨b⟩]

/-- Trims the characters satisfying `p` from both ends of a character list
(the semantics of Go `strings.Trim` with cutset `p`). -/
def trimEnds (p : Char → Bool) (l : List Char) : List Char :=
  ((l.dropWhile p).reverse.dropWhile p).reverse

/-- Go `strings.TrimSpace` (restricted to the ASCII whitespace that
`Char.isWhitespace` covers; the inputs handled here contain no exotic
Unicode whitespace). -/
def goTrimSpace (s : String) : String :=
  ⟨trimEnds Char.isWhitespace s.data⟩

/-- Go `strings.Trim(s, "<>")`. -/
def trimAngles (s : String) : String :=
  ⟨trimEnds (fun c => c = '<' || c = '>') s.data⟩

/-- Go `strings.Trim(s, "\"")`. -/
def trimQuotes (s : String) : String :=
  ⟨trimEnds (fun c => c = '"') s.data⟩

/-- Go `strings.HasPrefix(s, p)` for a single-character prefix. -/
def startsWithChar (s : String) (c : Char) : Bool :=
  match s.data with
  | [] => false
  | x :: _ => x = c

/-- Go `strings.HasSuffix(s, p)` for a single-character suffix. -/
def endsWithChar (s : String) (c : Char) : Bool :=
  match s.data.reverse with
  | [] => false
  | x :: _ => x = c

/-- Parses a non-empty list of decimal digits into a natural number
(the digit-accumulation loop of `strconv.Atoi`). -/
def digitsToNat : List Char → Option Nat
  | [] => none
  | ds =>
    if ds.all Char.isDigit then
      some (ds.foldl (fun acc c => 10 * acc + (c.toNat - '0'.toNat)) 0)
    else none

/-- Model of Go `strconv.Atoi`: an optional sign followed by at least one
decimal digit; anything else is a syntax error.  The 64-bit range check is
not modelled (all page numbers exercised here are tiny). -/
def goAtoi (s : String) : Except String Int :=
  let fail : Except String Int :=
    .error ("strconv.Atoi: parsing \"" ++ s ++ "\": invalid syntax")
  match s.data with
  | '-' :: ds =>
    match digitsToNat ds with
    | some n => .ok (-(n : Int))
    | none => fail
  | '+' :: ds =>
    match digitsToNat ds with
    | some n => .ok (n : Int)
    | none => fail
  | ds =>
    match digitsToNat ds with
    | some n => .ok (n : Int)
    | none => fail

/-! ### The program's own helper functions -/

/-- Walks a decoded document along a list of path segments, one segment per
loop iteration of Go `getNestedValue`: a non-object value or a missing key
returns Go `nil` (`vnull`) immediately. -/
def getNestedValueAux : GoVal → List String → GoVal
  | v, [] => v
  | .vobj fields, k :: ks =>
    match lookupField fields k with
    | some v => getNestedValueAux v ks
    | none => .vnull
  | _, _ :: _ => .vnull

/-- Go `getNestedValue(data, key)`: splits `key` on `"."` (note that the
empty key splits into the single segment `""`) and walks the document. -/
def getNestedValue (data : List (String × GoVal)) (key : String) : GoVal :=
  getNestedValueAux (.vobj data) (goSplit key '.')

/-- The inner loop of Go `getNextLastLinks` over the `";"`-separated pieces
of one comma-separated chunk: accumulates the `<...>` URL and the `rel`
value seen in the chunk. -/
def parseChunk (chunk : String) : String × String :=
  (goSplit chunk ';').foldl
    (fun ur piece0 =>
      let piece := goTrimSpace piece0
      if startsWithChar piece '<' && endsWithChar piece '>' then
        (trimAngles piece, ur.2)
      else
        match goSplitN2 piece '=' with
        | [k, v] => if k = "rel" then (ur.1, trimQuotes v) else ur
        | _ => ur)
    ("", "")

/-- The per-chunk update of Go `getNextLastLinks`: the chunk's URL is
assigned to `next` or `last` according to the chunk's `rel` value (the
`switch rel` at the end of the outer loop); any other `rel` leaves the
accumulator unchanged. -/
def nextLastStep (nl : String × String) (chunk : String) : String × String :=
  let ur := parseChunk chunk
  if ur.2 = "next" then (ur.1, nl.2)
  else if ur.2 = "last" then (nl.1, ur.1)
  else nl

/-- Go `getNextLastLinks(header)`: folds `nextLastStep` over the
comma-separated chunks, so later chunks overwrite earlier ones. -/
def getNextLastLinks (header : String) : String × String :=
  (goSplit header ',').foldl nextLastStep ("", "")

/-- Go `getInt(body, key)`: zero for an empty key; otherwise the value at
`key` must be an `int`, `int64` or `json.Number`, anything else is an
"unexpected type" error naming the key and the observed dynamic type.
(The `strconv` error text inside the `json.Number` case is abbreviated.) -/
def getInt (body : List (String × GoVal)) (key : String) : Except String Int :=
  if key = "" then .ok 0
  else
    match getNestedValue body key with
    | .vint n => .ok n
    | .vint64 n => .ok n
    | .vnumber s =>
      match goAtoi s with
      | .ok n => .ok n
      | .error _ => .error ("invalid value for " ++ key ++ ": invalid syntax")
    | v => .error ("unexpected type for " ++ key ++ ": " ++ typeName v)

/-- Go `getString(body, key)`: empty string for an empty key; the value at
`key` must be a string, while Go `nil` (absent key or JSON null) yields the
empty string; anything else is an "unexpected type" error. -/
def getString (body : List (String × GoVal)) (key : String) : Except String String :=
  if key = "" then .ok ""
  else
    match getNestedValue body key with
    | .vstr s => .ok s
    | .vnull => .ok ""
    | v => .error ("unexpected type for " ++ key ++ ": " ++ typeName v)

/-- Go `getEntries(rawBody, dataKey)`: an object body must hold an array at
`dataKey`; a top-level array body is taken whole (`dataKey` ignored); any
other body is a "wrong JSON type" error.  NB: the Go error for a non-array
`dataKey` value passes `dataKey` itself to `%T`, so it always prints
`string` as the observed type. -/
def getEntries (rawBody : GoVal) (dataKey : String) : Except String (List GoVal) :=
  match rawBody with
  | .vobj fields =>
    match getNestedValue fields dataKey with
    | .varr xs => .ok xs
    | _ => .error ("unexpected type for " ++ dataKey ++ ": string")
  | .varr xs => .ok xs
  | v => .error ("wrong JSON type " ++ typeName v)

/-! ### The pagination engine

`unpage` is embedded from the point after the first page has been fetched
and decoded: the first response is given as a `Resp` (decoded body, `Link`
header, request scheme and host), numbered-page fetches performed by the
concurrent workers are an oracle `fetchNum : Nat → Except String GoVal`
(covering `getPage` + JSON decode of the page with that page number), and
link-following fetches are an oracle `fetchURL : String → Except String Resp`.
The completion order of the concurrent workers is an explicit `order` list of
page numbers (a faithful run processes each of `2..totalPages` exactly once);
the sequential loop is fuelled, an exhausted fuel standing for the loop not
terminating. -/

/-- The configured keys of a run (the relevant CLI flags of `main`). -/
structure Config where
  paramPage : String
  countKey : String
  dataKey : String
  nextKey : String
  lastKey : String

/-- One decoded HTTP response: the decoded JSON body, the raw `Link` header
value, and the request URL's scheme and host (used to resolve relative
links). -/
structure Resp where
  body : GoVal
  linkHeader : String
  scheme : String
  host : String

/-- Absolutises a link that starts with `/` against the first response's
scheme and host, as `unpage` does before parsing it. -/
def resolveRelative (scheme host link : String) : String :=
  if startsWithChar link '/' then scheme ++ "://" ++ host ++ link else link

/-- Model of Go `url.Parse(u).Query().Get(key)`: the raw query is the part
of `u` after the first `?` (with any `#` fragment stripped first); it is
split on `&`, each pair at its first `=`, and the first value stored under
`key` is returned (empty string when absent).  Percent-decoding and the
rejection of `;` inside pairs are not modelled; no input handled here uses
them. -/
def urlQueryGet (u : String) (key : String) : String :=
  let beforeFrag : List Char :=
    match splitFirst '#' u.data with
    | some p => p.1
    | none => u.data
  let rawQuery : List Char :=
    match splitFirst '?' beforeFrag with
    | some p => p.2
    | none => []
  let pairs : List (String × String) :=
    (splitOnChar '&' rawQuery).filterMap (fun kv =>
      match kv with
      | [] => none
      | _ =>
        match splitFirst '=' kv with
        | some p => some (⟨p.1⟩, ⟨p.2⟩)
        | none => some (⟨kv⟩, ""))
  match pairs.find? (fun p => p.1 == key) with
  | some p => p.2
  | none => ""

/-- Lines 216–219 of the source: when `nextKey` is unconfigured, both links
come from the `Link` header, discarding any body-derived values; otherwise
the body-derived pair stands. -/
def selectLinks (nextKey bodyNext bodyLast linkHeader : String) : String × String :=
  if nextKey = "" then getNextLastLinks linkHeader else (bodyNext, bodyLast)

/-- Lines 196–219 of the source: extract `nextLink`, `lastLink` and `count`
from the first page.  For an object body the configured keys are read (in
the source's order, so the first failing key determines the error);
otherwise the Go zero values remain.  Then the `Link` header override of
`selectLinks` is applied. -/
def firstPageSignals (cfg : Config) (rawBody : GoVal) (linkHeader : String) :
    Except String (String × String × Int) :=
  match rawBody with
  | .vobj fields =>
    match getString fields cfg.nextKey with
    | .error e => .error e
    | .ok nl =>
      match getString fields cfg.lastKey with
      | .error e => .error e
      | .ok ll =>
        match getInt fields cfg.countKey with
        | .error e => .error e
        | .ok c =>
          let links := selectLinks cfg.nextKey nl ll linkHeader
          .ok (links.1, links.2, c)
  | _ =>
    let links := selectLinks cfg.nextKey "" "" linkHeader
    .ok (links.1, links.2, 0)

/-- The outcome of lines 221–245 of the source: either the run is already
complete with page 1's entries (`done`, the `count <= pageSize` early
return), or a total page count was computed (`pages`, where a value `<= 0`
means no total is known and the sequential strategy applies).  Note the Go
code checks `lastLink` before `count`, and divides the two positive `int`s
`count` and `pageSize` (where every integer-division convention agrees, so
the `Int` division here is faithful). -/
inductive Phase where
  | done (entries : List GoVal) : Phase
  | pages (totalPages : Int) : Phase

/-- Lines 221–245 of the source: a non-empty `lastLink` is absolutised and
its `paramPage` query value parsed as the total page count (`Atoi` failure
aborts the run); otherwise a positive `count` yields either the early
single-page return or `count / pageSize` rounded up. -/
def resolveTotal (paramPage scheme host : String) (lastLink : String) (count : Int)
    (entries : List GoVal) : Except String Phase :=
  if lastLink ≠ "" then
    match goAtoi (urlQueryGet (resolveRelative scheme host lastLink) paramPage) with
    | .error e => .error e
    | .ok n => .ok (.pages n)
  else if 0 < count then
    let pageSize : Int := entries.length
    if pageSize = 0 ∨ count ≤ pageSize then .ok (.done entries)
    else .ok (.pages (count / pageSize + if count % pageSize ≠ 0 then 1 else 0))
  else .ok (.pages 0)

/-- The body of one concurrent worker (lines 257–280 of the source): fetch
and decode its numbered page, then extract the entries. -/
def workerFetch (dataKey : String) (fetchNum : Nat → Except String GoVal)
    (page : Nat) : Except String (List GoVal) :=
  match fetchNum page with
  | .error e => .error e
  | .ok rawBody => getEntries rawBody dataKey

/-- The fan-out/fan-in of the concurrent phase: the workers listed in
`order` (the completion order) each write their entry list into their own
index-addressed slot (`page - 1`); the first failure is the error
`errgroup.Wait` reports and aborts the run. -/
def runWorkers (dataKey : String) (fetchNum : Nat → Except String GoVal) :
    List Nat → List (List GoVal) → Except String (List (List GoVal))
  | [], slots => .ok slots
  | p :: rest, slots =>
    match workerFetch dataKey fetchNum p with
    | .error e => .error e
    | .ok es => runWorkers dataKey fetchNum rest (slots.set (p - 1) es)

/-- The sequential next-link loop (lines 298–329 of the source).  Faithful
details: the loop variable the new link is assigned to is `nextKey` itself
(the source's line 318), and `nextLink` is only ever updated from the `Link`
header of the latest response, and only when the current `nextKey` is empty
— otherwise the same (absolutised) link is fetched again. -/
def followNext (cfg : Config) (scheme host : String)
    (fetchURL : String → Except String Resp) (fuel : Nat)
    (nextLink nextKey : String) (entries : List GoVal) :
    Except String (List GoVal) :=
  if nextLink = "" then .ok entries
  else
    match fuel with
    | 0 => .error "sequential loop did not terminate"
    | fuel' + 1 =>
      let link := resolveRelative scheme host nextLink
      match fetchURL link with
      | .error e => .error e
      | .ok resp =>
        match getEntries resp.body cfg.dataKey with
        | .error e => .error e
        | .ok more =>
          match
            (match resp.body with
             | .vobj fields => getString fields nextKey
             | _ => .ok nextKey) with
          | .error e => .error e
          | .ok nextKey' =>
            let nextLink' :=
              if nextKey' = "" then (getNextLastLinks resp.linkHeader).1 else link
            followNext cfg scheme host fetchURL fuel' nextLink' nextKey' (entries ++ more)

/-- Go `unpage` from the point after page 1 was fetched and decoded
(lines 196–329 of the source): extract page 1's entries, resolve the
pagination signals, and dispatch to the concurrent strategy (slot 1
pre-filled with page 1's entries, slots flattened in index order at the
end) or to the sequential next-link loop. -/
def unpage (cfg : Config) (resp1 : Resp) (fetchNum : Nat → Except String GoVal)
    (fetchURL : String → Except String Resp) (fuel : Nat) (order : List Nat) :
    Except String (List GoVal) :=
  match getEntries resp1.body cfg.dataKey with
  | .error e => .error e
  | .ok entries =>
    match firstPageSignals cfg resp1.body resp1.linkHeader with
    | .error e => .error e
    | .ok (nextLink, lastLink, count) =>
      match resolveTotal cfg.paramPage resp1.scheme resp1.host lastLink count entries with
      | .error e => .error e
      | .ok (.done es) => .ok es
      | .ok (.pages totalPages) =>
        if 0 < totalPages then
          match runWorkers cfg.dataKey fetchNum order
              ((List.replicate totalPages.toNat []).set 0 entries) with
          | .error e => .error e
          | .ok slots => .ok slots.flatten
        else
          followNext cfg resp1.scheme resp1.host fetchURL fuel nextLink cfg.nextKey entries

/-! ### Specification-side definitions

For the refinement claims, a second definition written from the
specification's words, to be compared with the embedded code. -/

/-- Spec 4.1, written from the spec's words: walk the path component by
component; a present component continues into the subtree, a missing
component or a non-object intermediate value is "absent" (`none`); the
value found at the end of the path is returned exactly. -/
def specResolvePath : GoVal → List String → Option GoVal
  | v, [] => some v
  | .vobj fields, k :: ks =>
    match lookupField fields k with
    | some v => specResolvePath v ks
    | none => none
  | _, _ :: _ => none

/-- The spec-side accessor result with "absent" represented as Go `nil`
(`vnull`), the representation the code uses. -/
def specResolveOrAbsent (root : GoVal) (key : String) : GoVal :=
  match specResolvePath root (goSplit key '.') with
  | some v => v
  | none => .vnull

/-- The URL of the last chunk in `chunks` whose `rel` value is `rel`, with
`dflt` when no chunk has that `rel` value. -/
def lastMatchURL (rel : String) (chunks : List String) (dflt : String) : String :=
  match chunks.reverse.find? (fun c => (parseChunk c).2 == rel) with
  | some c => (parseChunk c).1
  | none => dflt

/-- The URL of the last comma-separated chunk of `header` whose `rel` value
is `rel` (empty string when no chunk has that `rel` value) — the
"last occurrence wins" reading of the Link-header parser's contract. -/
def lastRelURL (rel : String) (header : String) : String :=
  lastMatchURL rel (goSplit header ',') ""

/-! ### Concrete fixtures used by witnesses and counterexamples -/

/-- A run configured only with a page parameter: page 1 is a top-level
array and the `Link` header announces `page=3` as the last page. -/
def cfgHeaderOnly : Config := ⟨"page", "", "", "", ""⟩

/-- First response of the header-driven three-page run. -/
def respHeader3 : Resp :=
  ⟨.varr [.vstr "a1", .vstr "a2"], "</x?page=3>; rel=\"last\"", "http", "h"⟩

/-- Page oracle of the three-page run: pages 2 and 3 are top-level arrays. -/
def fetchThreePages : Nat → Except String GoVal :=
  fun p =>
    if p = 2 then .ok (.varr [.vstr "b1", .vstr "b2"])
    else if p = 3 then .ok (.varr [.vstr "c1"]) else .error "no such page"

/-- Per-page entries of the three-page run, as a function of the page
number. -/
def entriesOfPage : Nat → List GoVal :=
  fun p =>
    if p = 2 then [.vstr "b1", .vstr "b2"]
    else if p = 3 then [.vstr "c1"] else []

/-- A page oracle whose page 2 fails while every other page succeeds. -/
def fetchPage2Fails : Nat → Except String GoVal :=
  fun p =>
    if p = 2 then .error "HTTP request failed with status 500: Internal Server Error: "
    else .ok (.varr [])

/-- A URL oracle for runs that are not supposed to follow any link. -/
def fetchNoURL : String → Except String Resp :=
  fun _ => .error "unexpected URL fetch"

/-- Configuration with `lastKey` configured but `nextKey` not, for the
precedence counterexample. -/
def cfgLastKeyOnly : Config := ⟨"page", "", "data", "", "last"⟩

/-- First response whose body `last` link points at page 1 while the `Link`
header's `last` link points at page 2. -/
def respBodyVsHeader : Resp :=
  ⟨.vobj [("data", .varr [.vstr "x"]), ("last", .vstr "/b?page=1")],
   "</h?page=2>; rel=\"last\"", "http", "api"⟩

/-- Page oracle serving a distinguishable page 2 for the precedence
counterexample. -/
def fetchPrecedence : Nat → Except String GoVal :=
  fun p => if p = 2 then .ok (.vobj [("data", .varr [.vstr "y"])]) else .error "no such page"

/-- Configuration using body keys `data` and `next`, for the single-page
witness. -/
def cfgNextKey : Config := ⟨"page", "", "data", "next", ""⟩

/-- A single-page response: one entry and an explicitly `null` next link. -/
def respSinglePage : Resp :=
  ⟨.vobj [("data", .varr [.vstr "e"]), ("next", .vnull)], "", "http", "h"⟩

/-- Count-mode fixture: two entries on page 1 and `count` present (as the
`int` the code's count branch expects), small enough for a single page. -/
def respCountSmall : Resp :=
  ⟨.vobj [("data", .varr [.vstr "e1", .vstr "e2"]), ("total", .vint 2)], "", "http", "h"⟩

/-- Configuration reading the count from the body key `total`. -/
def cfgCountKey : Config := ⟨"page", "total", "data", "", ""⟩

/-- A page oracle for runs that are not supposed to fetch any numbered
page. -/
def fetchNoNum : Nat → Except String GoVal :=
  fun _ => .error "unexpected page fetch"

/-! ## Theorems -/

/-- The accessor walk agrees with the specification-side path resolution on
every value and every segment list, with "absent" rendered as `vnull`. -/
theorem getNestedValueAux_eq_spec (segs : List String) :
    ∀ v : GoVal, getNestedValueAux v segs =
      match specResolvePath v segs with
      | some w => w
      | none => GoVal.vnull := by
  induction segs with
  | nil => intro v; cases v <;> rfl
  | cons k ks ih =>
    intro v
    cases v with
    | vobj fields =>
      simp only [getNestedValueAux, specResolvePath]
      cases h : lookupField fields k with
      | some w => exact ih w
      | none => rfl
    | vnull => rfl
    | vbool b => rfl
    | vfloat x => rfl
    | vint n => rfl
    | vint64 n => rfl
    | vnumber s => rfl
    | vstr s => rfl
    | varr xs => rfl

/-- C7: for every document and non-empty dotted key path, `getNestedValue`
returns exactly what the spec's Nested-Key Accessor contract prescribes —
the exact subtree when every segment exists under object intermediates, and
the distinguished absent value (`nil`) when a segment is missing or an
intermediate is not an object; being a total function it never raises. -/
theorem getNestedValue_spec_refinement (data : List (String × GoVal)) (key : String)
    (h : key ≠ "") :
    getNestedValue data key = specResolveOrAbsent (.vobj data) key := by
  unfold getNestedValue specResolveOrAbsent
  exact getNestedValueAux_eq_spec (goSplit key '.') (.vobj data)

/-- Witness for C7 at the concrete path `a.b` in a concrete document. -/
theorem getNestedValue_spec_refinement_witness :
    ("a.b" ≠ "")
    ∧ getNestedValue [("a", GoVal.vobj [("b", GoVal.vstr "z")])] "a.b"
        = specResolveOrAbsent (.vobj [("a", GoVal.vobj [("b", GoVal.vstr "z")])]) "a.b"
    ∧ getNestedValue [("a", GoVal.vobj [("b", GoVal.vstr "z")])] "a.b" = GoVal.vstr "z" :=
  ⟨by decide, getNestedValue_spec_refinement _ _ (by decide), rfl⟩

/-- C8 counterexample: the accessor applied with the empty key path does
not return the root document — on the document `{"a": "x"}` it returns
`nil` (it looks up the key `""`, because Go `strings.Split("", ".")` is
`[""]`), not the root object. -/
theorem getNestedValue_empty_key_cex :
    getNestedValue [("a", GoVal.vstr "x")] "" ≠ GoVal.vobj [("a", GoVal.vstr "x")] :=
  fun h => GoVal.noConfusion h

/-- C8 amended: on an object root, the empty key path is split into the
single segment `""`, so the accessor returns the value stored under the
key `""` when present and the absent value (`nil`) otherwise — never the
root document itself. -/
theorem getNestedValue_empty_key_amended (data : List (String × GoVal)) :
    getNestedValue data "" =
      match lookupField data "" with
      | some v => v
      | none => GoVal.vnull := by
  show getNestedValueAux (.vobj data) [""] = _
  simp only [getNestedValueAux]

/-- C6: evaluation of `getInt` at the failing input — a numeric JSON count
(`{"count": 6}`, which the `encoding/json` decoder materialises as the Go
`float64` value `6`) is rejected with the typed error instead of being
accepted, because the decoder is never configured with `UseNumber` and the
switch has no `float64` case. -/
theorem getInt_rejects_decoded_number :
    getInt [("count", GoVal.vfloat 6)] "count"
      = .error "unexpected type for count: float64" := rfl

/-- C10: a top-level JSON array body is taken whole as the entries, for
every configured data key — the key is ignored and no shape error can
arise. -/
theorem getEntries_array_ignores_dataKey (xs : List GoVal) (dataKey : String) :
    getEntries (.varr xs) dataKey = .ok xs := rfl

/-- C4: when the first page's resolved signals are empty (no usable next
link, no last link, no positive count — which covers a configured
`nextKey` bound to an explicit JSON `null`, since `getString` maps `nil`
to the empty string) and page 1 has entries, `unpage` returns exactly page
1's entries in order, without error, for every page and URL oracle — hence
without performing any further fetch. -/
theorem unpage_single_page_no_signals (cfg : Config) (resp1 : Resp)
    (fetchNum : Nat → Except String GoVal) (fetchURL : String → Except String Resp)
    (fuel : Nat) (order : List Nat) (entries : List GoVal) (count : Int)
    (hent : getEntries resp1.body cfg.dataKey = .ok entries)
    (hsig : firstPageSignals cfg resp1.body resp1.linkHeader = .ok ("", "", count))
    (hcount : count ≤ 0) (hne : entries ≠ []) :
    unpage cfg resp1 fetchNum fetchURL fuel order = .ok entries := by
  have hres : resolveTotal cfg.paramPage resp1.scheme resp1.host "" count entries
      = .ok (.pages 0) := by
    unfold resolveTotal
    rw [if_neg (by simp), if_neg (by omega)]
  simp only [unpage, hent, hsig, hres]
  rw [if_neg (by omega)]
  unfold followNext
  rw [if_pos rfl]

/-- Witness for C4: a one-page response whose `next` key is explicitly
`null`. -/
theorem unpage_single_page_no_signals_witness :
    unpage cfgNextKey respSinglePage fetchNoNum fetchNoURL 5 [] = .ok [.vstr "e"] :=
  unpage_single_page_no_signals cfgNextKey respSinglePage fetchNoNum fetchNoURL 5 []
    [.vstr "e"] 0 rfl rfl (by decide) (List.cons_ne_nil _ _)

/-- Ceiling division, computed the way the source does (truncating division
plus one when a remainder exists), equals the closed form
`(c + s - 1) / s`. -/
theorem nat_ceil_div (c s : Nat) (hs : 0 < s) :
    c / s + (if c % s = 0 then 0 else 1) = (c + s - 1) / s := by
  by_cases h : c % s = 0
  · rw [if_pos h]
    have h2 : c + s - 1 = (s - 1) + s * (c / s) := by
      have e2 := Nat.div_add_mod c s
      generalize s * (c / s) = a at e2 ⊢
      generalize c % s = r at e2 h
      omega
    rw [h2, Nat.add_mul_div_left _ _ hs,
      Nat.div_eq_of_lt (by omega : s - 1 < s)]
    simp
  · rw [if_neg h]
    have hlt : c % s < s := Nat.mod_lt _ hs
    have h2 : c + s - 1 = (c % s - 1) + s * (c / s + 1) := by
      have e1 : s * (c / s + 1) = s * (c / s) + s := by ring
      have e2 := Nat.div_add_mod c s
      rw [e1]
      generalize s * (c / s) = a at e2 ⊢
      generalize c % s = r at e2 h hlt ⊢
      omega
    rw [h2, Nat.add_mul_div_left _ _ hs,
      Nat.div_eq_of_lt (by omega : c % s - 1 < s)]
    simp

/-- The source's `count / pageSize` rounding-up arithmetic, carried out on
`Int` as the Go `int`s are, equals the natural-number ceiling division. -/
theorem int_count_pages (c s : Nat) (hs : 0 < s) :
    (c : Int) / (s : Int) + (if (c : Int) % (s : Int) ≠ 0 then 1 else 0)
      = (((c + s - 1) / s : Nat) : Int) := by
  rw [← Int.ofNat_ediv, ← Int.ofNat_emod]
  rw [← nat_ceil_div c s hs]
  by_cases h : c % s = 0
  · rw [if_neg (by exact_mod_cast not_not_intro h), if_pos h]
    simp
  · rw [if_pos (by exact_mod_cast h), if_neg h]
    push_cast
    ring

/-- C2: count mode.  First conjunct: with no last link, a positive count
and a positive page size smaller than the count, the resolver computes
`ceil(count / pageSize)` total pages.  Second conjunct: with no last link,
a positive count, and `pageSize == 0` or `count <= pageSize`, `unpage`
returns exactly page 1's entries for every fetch oracle — no further
fetches are performed. -/
theorem unpage_count_mode :
    (∀ (paramPage scheme host : String) (count : Int) (entries : List GoVal),
        0 < entries.length → (entries.length : Int) < count →
        resolveTotal paramPage scheme host "" count entries
          = .ok (.pages (((count.toNat + entries.length - 1) / entries.length : Nat) : Int)))
    ∧ (∀ (cfg : Config) (resp1 : Resp) (fetchNum : Nat → Except String GoVal)
        (fetchURL : String → Except String Resp) (fuel : Nat) (order : List Nat)
        (entries : List GoVal) (nextLink : String) (count : Int),
        getEntries resp1.body cfg.dataKey = .ok entries →
        firstPageSignals cfg resp1.body resp1.linkHeader = .ok (nextLink, "", count) →
        0 < count →
        ((entries.length : Int) = 0 ∨ count ≤ (entries.length : Int)) →
        unpage cfg resp1 fetchNum fetchURL fuel order = .ok entries) := by
  constructor
  · intro paramPage scheme host count entries hlen hgt
    unfold resolveTotal
    rw [if_neg (by simp), if_pos (by omega), if_neg (by push_neg; constructor <;> omega)]
    obtain ⟨c, rfl⟩ : ∃ c : Nat, count = (c : Int) :=
      ⟨count.toNat, (Int.toNat_of_nonneg (by omega)).symm⟩
    rw [Int.toNat_ofNat]
    exact congrArg (fun t => Except.ok (Phase.pages t))
      (int_count_pages c entries.length hlen)
  · intro cfg resp1 fetchNum fetchURL fuel order entries nextLink count hent hsig hpos hsz
    have hres : resolveTotal cfg.paramPage resp1.scheme resp1.host "" count entries
        = .ok (.done entries) := by
      unfold resolveTotal
      rw [if_neg (by simp), if_pos hpos, if_pos hsz]
    simp only [unpage, hent, hsig, hres]

/-- Witness for C2: count 6 with two entries on page 1 gives three pages;
count 2 with two entries returns page 1 immediately. -/
theorem unpage_count_mode_witness :
    resolveTotal "page" "http" "h" "" 6 [.vstr "e1", .vstr "e2"] = .ok (.pages 3)
    ∧ unpage cfgCountKey respCountSmall fetchNoNum fetchNoURL 0 []
        = .ok [.vstr "e1", .vstr "e2"] := by
  constructor
  · have h := unpage_count_mode.1 "page" "http" "h" 6 [.vstr "e1", .vstr "e2"]
      (by decide) (by decide)
    simpa using h
  · exact unpage_count_mode.2 cfgCountKey respCountSmall fetchNoNum fetchNoURL 0 []
      [.vstr "e1", .vstr "e2"] "" 2 rfl rfl (by decide) (by decide)

/-- The first-page signal extraction never reads the `Link` header when
`nextKey` is configured. -/
theorem firstPageSignals_header_blind (cfg : Config) (body : GoVal) (h1 h2 : String)
    (hne : cfg.nextKey ≠ "") :
    firstPageSignals cfg body h1 = firstPageSignals cfg body h2 := by
  unfold firstPageSignals selectLinks
  cases body <;> simp [hne]

/-- C3 counterexample: with `lastKey` configured but `nextKey` not, the
body's `last` link (`/b?page=1`, one page) is discarded in favour of the
`Link` header's (`/h?page=2`, two pages): the run fetches page 2 and
returns its entries as well, so the body-configured key did not take
precedence. -/
theorem unpage_body_precedence_cex :
    unpage cfgLastKeyOnly respBodyVsHeader fetchPrecedence fetchNoURL 0 [2]
        = .ok [.vstr "x", .vstr "y"]
    ∧ (Except.ok [GoVal.vstr "x", GoVal.vstr "y"] : Except String (List GoVal))
        ≠ .ok [GoVal.vstr "x"] := by
  refine ⟨rfl, ?_⟩
  intro h
  simp at h

/-- C3 amended: body-derived links drive the traversal exactly when
`nextKey` is configured — the whole run is then independent of the first
response's `Link` header; when `nextKey` is unconfigured, both links come
from the `Link` header even when `lastKey` is configured and resolved. -/
theorem unpage_link_precedence_amended :
    (∀ (cfg : Config) (b : GoVal) (lh lh' sc ho : String)
        (fetchNum : Nat → Except String GoVal) (fetchURL : String → Except String Resp)
        (fuel : Nat) (order : List Nat),
        cfg.nextKey ≠ "" →
        unpage cfg ⟨b, lh, sc, ho⟩ fetchNum fetchURL fuel order
          = unpage cfg ⟨b, lh', sc, ho⟩ fetchNum fetchURL fuel order)
    ∧ (∀ bodyNext bodyLast linkHeader : String,
        selectLinks "" bodyNext bodyLast linkHeader = getNextLastLinks linkHeader) := by
  constructor
  · intro cfg b lh lh' sc ho fetchNum fetchURL fuel order hne
    simp only [unpage]
    rw [firstPageSignals_header_blind cfg b lh lh' hne]
  · intro bodyNext bodyLast linkHeader
    rfl

/-- Witness for C3's amended claim: a configured `nextKey` makes the run
blind to the `Link` header, and an empty `nextKey` hands both links to the
header parser. -/
theorem unpage_link_precedence_amended_witness :
    cfgNextKey.nextKey ≠ ""
    ∧ unpage cfgNextKey ⟨respSinglePage.body, "</q?page=9>; rel=\"last\"", "http", "h"⟩
        fetchNoNum fetchNoURL 5 []
      = unpage cfgNextKey ⟨respSinglePage.body, "", "http", "h"⟩ fetchNoNum fetchNoURL 5 []
    ∧ selectLinks "" "/bn" "/bl" "</q?page=9>; rel=\"last\""
        = getNextLastLinks "</q?page=9>; rel=\"last\"" :=
  ⟨by decide,
   unpage_link_precedence_amended.1 cfgNextKey respSinglePage.body _ _ "http" "h"
     fetchNoNum fetchNoURL 5 [] (by decide),
   unpage_link_precedence_amended.2 "/bn" "/bl" _⟩

/-- A single failing worker aborts the slot-filling fold with its error, in
whatever position of the completion order it sits, provided every other
listed worker succeeds. -/
theorem runWorkers_error (dataKey : String) (fetchNum : Nat → Except String GoVal)
    (err : String) (p : Nat) :
    ∀ (order : List Nat) (slots : List (List GoVal)),
      p ∈ order →
      workerFetch dataKey fetchNum p = .error err →
      (∀ q ∈ order, q ≠ p → ∃ es, workerFetch dataKey fetchNum q = .ok es) →
      runWorkers dataKey fetchNum order slots = .error err := by
  intro order
  induction order with
  | nil => intro slots hp _ _; cases hp
  | cons q rest ih =>
    intro slots hp hfail hok
    by_cases hqp : q = p
    · subst hqp
      simp only [runWorkers, hfail]
    · obtain ⟨es, hq⟩ := hok q (List.mem_cons_self _ _) hqp
      simp only [runWorkers, hq]
      have hp' : p ∈ rest := by
        rcases List.mem_cons.mp hp with h | h
        · exact absurd h.symm hqp
        · exact h
      exact ih _ hp' hfail (fun r hr hrp => hok r (List.mem_cons_of_mem _ hr) hrp)

/-- C5: in a known-total-pages run, if one worker's page fetch, decode or
entry extraction fails while every other worker would have succeeded,
`unpage` returns that worker's error and no entries, wherever the failure
sits in the completion order. -/
theorem unpage_worker_failure_aborts (cfg : Config) (resp1 : Resp)
    (fetchNum : Nat → Except String GoVal) (fetchURL : String → Except String Resp)
    (fuel : Nat) (order : List Nat) (entries : List GoVal) (nextLink lastLink : String)
    (count : Int) (n : Int) (p : Nat) (err : String)
    (hent : getEntries resp1.body cfg.dataKey = .ok entries)
    (hsig : firstPageSignals cfg resp1.body resp1.linkHeader = .ok (nextLink, lastLink, count))
    (hres : resolveTotal cfg.paramPage resp1.scheme resp1.host lastLink count entries
      = .ok (.pages n))
    (hn : 0 < n)
    (hord : order.Perm (List.range' 2 (n.toNat - 1)))
    (hp : p ∈ order)
    (hfail : workerFetch cfg.dataKey fetchNum p = .error err)
    (hok : ∀ q ∈ order, q ≠ p → ∃ es, workerFetch cfg.dataKey fetchNum q = .ok es) :
    unpage cfg resp1 fetchNum fetchURL fuel order = .error err := by
  simp only [unpage, hent, hsig, hres]
  rw [if_pos hn]
  rw [runWorkers_error cfg.dataKey fetchNum err p order _ hp hfail hok]

/-- Witness for C5: in the three-page run, page 2 failing with an HTTP 500
error aborts the whole call with that error even though page 3 succeeds,
with page 2 completing last. -/
theorem unpage_worker_failure_aborts_witness :
    unpage cfgHeaderOnly respHeader3 fetchPage2Fails fetchNoURL 0 [3, 2]
      = .error "HTTP request failed with status 500: Internal Server Error: " :=
  unpage_worker_failure_aborts cfgHeaderOnly respHeader3 fetchPage2Fails fetchNoURL 0 [3, 2]
    [.vstr "a1", .vstr "a2"] "" "/x?page=3" 0 3 2
    "HTTP request failed with status 500: Internal Server Error: "
    rfl rfl rfl (by decide) (by decide) (by decide) rfl
    (by
      intro q hq hqp
      have hq' : q = 3 ∨ q = 2 := by simpa using hq
      rcases hq' with rfl | rfl
      · exact ⟨[], rfl⟩
      · exact absurd rfl hqp)

/-- When every worker listed in the completion order succeeds, the
slot-filling fold computes the pure fold of index-addressed writes. -/
theorem runWorkers_ok (dataKey : String) (fetchNum : Nat → Except String GoVal)
    (es : Nat → List GoVal) :
    ∀ (order : List Nat) (slots : List (List GoVal)),
      (∀ p ∈ order, workerFetch dataKey fetchNum p = .ok (es p)) →
      runWorkers dataKey fetchNum order slots
        = .ok (order.foldl (fun s p => s.set (p - 1) (es p)) slots) := by
  intro order
  induction order with
  | nil => intro slots _; rfl
  | cons p rest ih =>
    intro slots h
    simp only [runWorkers, h p (List.mem_cons_self _ _), List.foldl_cons]
    exact ih _ (fun q hq => h q (List.mem_cons_of_mem _ hq))

/-- Element-wise effect of a sequence of index-addressed slot writes: an
index written by some listed page holds that page's entries, every other
index keeps its initial content. -/
theorem foldl_set_getElem (es : Nat → List GoVal) :
    ∀ (order : List Nat) (S : List (List GoVal)) (i : Nat),
      (∀ p ∈ order, 1 ≤ p) →
      (order.foldl (fun s p => s.set (p - 1) (es p)) S)[i]?
        = if (i + 1) ∈ order ∧ i < S.length then some (es (i + 1)) else S[i]? := by
  intro order
  induction order with
  | nil => intro S i _; simp
  | cons p rest ih =>
    intro S i h
    have hp1 : 1 ≤ p := h p (List.mem_cons_self _ _)
    rw [List.foldl_cons, ih (S.set (p - 1) (es p)) i
      (fun q hq => h q (List.mem_cons_of_mem _ hq)), List.length_set]
    by_cases hm : (i + 1) ∈ rest
    · by_cases hlen : i < S.length
      · rw [if_pos ⟨hm, hlen⟩, if_pos ⟨List.mem_cons_of_mem _ hm, hlen⟩]
      · rw [if_neg (fun hc => hlen hc.2), if_neg (fun hc => hlen hc.2),
          List.getElem?_set]
        by_cases hpi : p - 1 = i
        · rw [if_pos hpi, if_neg (by omega), List.getElem?_eq_none (by omega)]
        · rw [if_neg hpi]
    · rw [if_neg (fun hc => hm hc.1), List.getElem?_set]
      by_cases hpi : p - 1 = i
      · have hip : i + 1 = p := by omega
        by_cases hlen : i < S.length
        · rw [if_pos hpi, if_pos (by omega),
            if_pos ⟨(by rw [hip]; exact List.mem_cons_self _ _), hlen⟩, hip]
        · rw [if_pos hpi, if_neg (by omega), if_neg (fun hc => hlen hc.2),
            List.getElem?_eq_none (by omega)]
      · have hip : i + 1 ≠ p := by omega
        rw [if_neg hpi, if_neg (fun hc => by
          rcases List.mem_cons.mp hc.1 with h1 | h1
          · exact hip h1
          · exact hm h1)]

/-- Writing the pages `2..k` of a `k`-slot arena (slot 1 pre-filled with
page 1's entries) in any completion order that covers each page once
produces the slots in ascending page order. -/
theorem slots_final (es : Nat → List GoVal) (k : Nat) (hk : 1 ≤ k) (e1 : List GoVal)
    (order : List Nat) (hord : order.Perm (List.range' 2 (k - 1))) :
    order.foldl (fun s p => s.set (p - 1) (es p)) ((List.replicate k []).set 0 e1)
      = e1 :: (List.range' 2 (k - 1)).map es := by
  have hmem : ∀ p ∈ List.range' 2 (k - 1), 2 ≤ p := by
    intro p hp
    rw [List.mem_range'] at hp
    omega
  rw [List.Perm.foldl_eq' hord (fun x hx y hy z => by
    have hx2 : 2 ≤ x := hmem x (hord.subset hx)
    have hy2 : 2 ≤ y := hmem y (hord.subset hy)
    by_cases hxy : x = y
    · subst hxy
      rfl
    · exact List.set_comm _ _ _ (by omega))]
  apply List.ext_getElem?
  intro i
  rw [foldl_set_getElem es _ _ i (fun p hp => by have := hmem p hp; omega)]
  rw [List.length_set, List.length_replicate]
  have hmem_iff : (i + 1) ∈ List.range' 2 (k - 1) ↔ 1 ≤ i ∧ i < k := by
    rw [List.mem_range']
    constructor
    · rintro ⟨j, hj, hij⟩; omega
    · intro hi; exact ⟨i - 1, by omega, by omega⟩
  cases i with
  | zero =>
    rw [if_neg (fun hc => by have := hmem_iff.mp hc.1; omega),
      List.getElem?_set, if_pos rfl, if_pos (by rw [List.length_replicate]; omega),
      List.getElem?_cons_zero]
  | succ j =>
    rw [List.getElem?_cons_succ, List.getElem?_map]
    by_cases hj : j < k - 1
    · rw [if_pos ⟨hmem_iff.mpr (by omega), (by omega : j + 1 < k)⟩,
        List.getElem?_range' _ _ hj]
      have h21 : 2 + 1 * j = j + 1 + 1 := by omega
      rw [h21]
      rfl
    · rw [if_neg (fun hc => hj (by have := hmem_iff.mp hc.1; omega)),
        List.getElem?_set, if_neg (by omega),
        List.getElem?_eq_none (by rw [List.length_replicate]; omega),
        List.getElem?_eq_none (by rw [List.length_range']; omega)]
      rfl

/-- C1: whenever a total page count `n` is known up front (resolved from a
last link or from a count), the value `unpage` returns is the concatenation
of page 1's entries with the entries of pages `2..n` in ascending page
index — for every completion order of the concurrent workers, because each
page is written into its own index-addressed slot. -/
theorem unpage_known_total_pages_concat (cfg : Config) (resp1 : Resp)
    (fetchNum : Nat → Except String GoVal) (fetchURL : String → Except String Resp)
    (fuel : Nat) (order : List Nat) (entries : List GoVal) (nextLink lastLink : String)
    (count : Int) (n : Int) (es : Nat → List GoVal)
    (hent : getEntries resp1.body cfg.dataKey = .ok entries)
    (hsig : firstPageSignals cfg resp1.body resp1.linkHeader = .ok (nextLink, lastLink, count))
    (hres : resolveTotal cfg.paramPage resp1.scheme resp1.host lastLink count entries
      = .ok (.pages n))
    (hn : 0 < n)
    (hord : order.Perm (List.range' 2 (n.toNat - 1)))
    (hfetch : ∀ p ∈ List.range' 2 (n.toNat - 1),
        workerFetch cfg.dataKey fetchNum p = .ok (es p)) :
    unpage cfg resp1 fetchNum fetchURL fuel order
      = .ok (entries ++ ((List.range' 2 (n.toNat - 1)).map es).flatten) := by
  simp only [unpage, hent, hsig, hres]
  rw [if_pos hn]
  rw [runWorkers_ok cfg.dataKey fetchNum es order _
    (fun p hp => hfetch p (hord.subset hp))]
  rw [slots_final es n.toNat (by omega) entries order hord]
  simp only [List.flatten_cons]

/-- Witness for C1: a header-announced three-page run whose workers finish
out of order (page 3 before page 2) still yields pages 1, 2, 3 in order. -/
theorem unpage_known_total_pages_concat_witness :
    unpage cfgHeaderOnly respHeader3 fetchThreePages fetchNoURL 0 [3, 2]
      = .ok ([GoVal.vstr "a1", .vstr "a2"]
          ++ ((List.range' 2 ((3 : Int).toNat - 1)).map entriesOfPage).flatten) :=
  unpage_known_total_pages_concat cfgHeaderOnly respHeader3 fetchThreePages fetchNoURL 0
    [3, 2] [.vstr "a1", .vstr "a2"] "" "/x?page=3" 0 3 entriesOfPage
    rfl rfl rfl (by decide) (by decide)
    (by
      intro p hp
      have hb : 2 ≤ p ∧ p < 4 := by simpa using hp
      have hp' : p = 2 ∨ p = 3 := by omega
      rcases hp' with rfl | rfl <;> rfl)

/-- Prepending a chunk to the list shifts it into the default of the
last-match search: the new chunk's URL is the fallback used only when no
later chunk matches the `rel` value. -/
theorem lastMatchURL_cons (rel c : String) (cs : List String) (dflt : String) :
    lastMatchURL rel (c :: cs) dflt
      = lastMatchURL rel cs (if (parseChunk c).2 == rel then (parseChunk c).1 else dflt) := by
  unfold lastMatchURL
  rw [List.reverse_cons, List.find?_append]
  cases hN : cs.reverse.find? (fun x => (parseChunk x).2 == rel) with
  | some d => rfl
  | none =>
    cases hc : (parseChunk c).2 == rel with
    | true => simp [List.find?_cons, hc]
    | false => simp [List.find?_cons, hc]

/-- First projection of the per-chunk update: a `next` chunk installs its
URL, anything else leaves `next` unchanged. -/
theorem nextLastStep_fst (acc : String × String) (c : String) :
    (nextLastStep acc c).1
      = if (parseChunk c).2 == "next" then (parseChunk c).1 else acc.1 := by
  unfold nextLastStep
  by_cases h : (parseChunk c).2 = "next"
  · simp [h]
  · by_cases h2 : (parseChunk c).2 = "last" <;> simp [h, h2]

/-- Second projection of the per-chunk update: a `last` chunk installs its
URL, anything else leaves `last` unchanged. -/
theorem nextLastStep_snd (acc : String × String) (c : String) :
    (nextLastStep acc c).2
      = if (parseChunk c).2 == "last" then (parseChunk c).1 else acc.2 := by
  unfold nextLastStep
  by_cases h : (parseChunk c).2 = "next"
  · have h2 : (parseChunk c).2 ≠ "last" := by rw [h]; decide
    simp [h, h2]
  · by_cases h2 : (parseChunk c).2 = "last" <;> simp [h, h2]

/-- The accumulating fold over the chunks equals the last-match
characterisation, componentwise. -/
theorem nextLast_foldl (chunks : List String) :
    ∀ acc : String × String,
      chunks.foldl nextLastStep acc
        = (lastMatchURL "next" chunks acc.1, lastMatchURL "last" chunks acc.2) := by
  induction chunks with
  | nil => intro acc; rfl
  | cons c cs ih =>
    intro acc
    rw [List.foldl_cons, ih (nextLastStep acc c), lastMatchURL_cons, lastMatchURL_cons,
      nextLastStep_fst, nextLastStep_snd]

/-- C9 counterexample: in `<u1>; rel="next", rel="next"` the second chunk
is malformed (no angle-bracketed URL) yet does not "contribute nothing" —
it overwrites `next` with the empty string, so the parser returns
`("", "")` instead of the claimed `("u1", "")`. -/
theorem getNextLastLinks_malformed_cex :
    getNextLastLinks "<u1>; rel=\"next\", rel=\"next\"" = ("", "")
    ∧ (("", "") : String × String) ≠ ("u1", "") := by
  refine ⟨rfl, ?_⟩
  decide

/-- C9 amended: for every Link header value the parser returns, for each of
`next` and `last`, the URL of the last comma-separated chunk carrying that
`rel` value and the empty string when there is none — so unknown `rel`
values are ignored, chunks without a `rel` contribute nothing, the last
occurrence wins on duplicates, but a chunk carrying a matching `rel`
without an angle-bracketed URL overwrites that link with the empty string;
and the spec's three examples hold. -/
theorem getNextLastLinks_amended :
    (∀ header, getNextLastLinks header = (lastRelURL "next" header, lastRelURL "last" header))
    ∧ getNextLastLinks "<u1>; rel=\"next\", <u2>; rel=\"last\"" = ("u1", "u2")
    ∧ getNextLastLinks "<u3>; rel=\"prev\"" = ("", "")
    ∧ getNextLastLinks "" = ("", "") := by
  refine ⟨fun header => ?_, rfl, rfl, rfl⟩
  unfold getNextLastLinks lastRelURL
  exact nextLast_foldl (goSplit header ',') ("", "")

end Unpage
